import Mathlib

/-!
Shallow embedding of the anotify multiplexing registry and its surrounding
components (repository `anotify`), together with proofs settling the frozen
claims about the natural-language specification.

Source files embedded here:
 - `src/new/internal/registry.rs` (Registry, Watch, Collector, event translation)
 - `src/new/internal/binding.rs` (Binding trait, BindingEvent)
 - `src/new/internal/inotify.rs` (`InotifyBinding::poll_events`)
 - `src/new/external.rs` (EventFilterType, Event, `contained_in`, handle `next`/`watch`)
 - `src/shared.rs` and `src/new/internal.rs` (`SharedState::request`)
 - `src/errors.rs` (error taxonomy, `Closed` variant)

Modelling conventions:
 - `usize`/`u32` values (subscription ids, kernel watch descriptors, cookies)
   are embedded as `Nat`; none of the verified claims depend on overflow.
 - `PathBuf` is embedded as `String`; the registry only ever compares paths
   byte-for-byte (`v.path == path`), which `String` equality models exactly.
 - `std::collections::HashMap` is embedded behaviourally as an association
   list (`Tbl`); Rust's `HashMap` iteration order is unspecified, so the list
   order is one admissible iteration order.  `HashSet<Id>` is a `Finset Nat`.
 - Rust panics (`unreachable!`, failed assertions) are embedded as `none` of
   an `Option`-valued result.
 - `tokio::sync::mpsc` bounded channels are embedded as a capacity plus a
   FIFO queue plus a closed flag; `try_send` fails with `Full` when the
   queue is at capacity, and with `Closed` when the receiver was dropped.
-/

namespace Anotify

/-- Paths (`std::path::PathBuf`); the code only uses byte-exact equality. -/
abbrev Path := String

/-- Subscription identifier, `struct Id(usize)` of `src/new/internal.rs`. -/
abbrev Id := Nat

/-- Kernel watch identifier (the binding's `Identifier` associated type). -/
abbrev Wd := Nat

/-- Rename cookie (`u32`). -/
abbrev Cookie := Nat

/-- Filter atoms, `enum EventFilterType` of `src/new/external.rs`. -/
inductive EventFilterType
  | Read
  | Write
  | Open
  | CloseNoModify
  | CloseModify
  | Move
  | Metadata
  | Create
  | Delete
  | DirOnly
  | FileOnly
deriving DecidableEq, Repr

/-- Combined filter flags: `type EventFilter = BitFlags<EventFilterType>`.
A bitset over the atoms is a finite set of atoms; bitwise or is union and
`BitFlags::contains` is superset. -/
abbrev EventFilter := Finset EventFilterType

/-- User-facing event types, `enum EventType` of `src/new/external.rs`.
The argument of `Move` is the field named `to` in the source (`to` is a
reserved token in Lean). -/
inductive EventType
  | Read
  | Write
  | Open
  | Close (modified : Bool)
  | Move (dest : Option Path)
  | Create
  | Delete
  | Metadata
deriving DecidableEq, Repr

/-- User-facing events, `struct Event` of `src/new/external.rs`. -/
structure Event where
  path : Path
  ty : EventType
deriving DecidableEq, Repr

/-- The fixed event-type-to-filter-atom mapping inside `Event::contained_in`. -/
def EventType.as_filter : EventType → EventFilterType
  | .Read => .Read
  | .Write => .Write
  | .Open => .Open
  | .Close true => .CloseModify
  | .Close false => .CloseNoModify
  | .Move _ => .Move
  | .Create => .Create
  | .Delete => .Delete
  | .Metadata => .Metadata

/-- Model of `Event::contained_in` (src/new/external.rs): checks whether the
filter contains the atom this event maps to. -/
def Event.contained_in (e : Event) (filter : EventFilter) : Bool :=
  decide (e.ty.as_filter ∈ filter)

/-- Raw binding event types, `enum BindingEventType` of
`src/new/internal/binding.rs`. -/
inductive BindingEventType
  | Open
  | CloseNoModify
  | CloseModify
  | Read
  | Write
  | Metadata
  | Create
  | Delete
  | MoveFrom (cookie : Cookie)
  | MoveTo (cookie : Cookie)
  | SelfRemoved
deriving DecidableEq, Repr

/-- Raw events coming out of a binding, `struct BindingEvent<I>` of
`src/new/internal/binding.rs`. -/
structure BindingEvent where
  wd : Wd
  path : Option Path
  ty : List BindingEventType
deriving DecidableEq, Repr

/-- Behavioural model of `std::collections::HashMap` with `Nat` keys: an
association list.  Iteration order of a Rust `HashMap` is unspecified; the
list order stands in for one admissible order. -/
abbrev Tbl (V : Type) := List (Nat × V)

namespace Tbl

variable {V : Type}

/-- `HashMap::get`. -/
def lookup (t : Tbl V) (k : Nat) : Option V :=
  (t.find? (fun e => e.1 == k)).map (·.2)

/-- `HashMap::remove` (the mapping disappears; the removed value, when the
caller uses it, is read off with `lookup` first). -/
def erase (t : Tbl V) (k : Nat) : Tbl V :=
  t.filter (fun e => !(e.1 == k))

/-- `HashMap::insert`. -/
def insert (t : Tbl V) (k : Nat) (v : V) : Tbl V :=
  (k, v) :: erase t k

/-- In-place mutation of the value behind an existing key, as done through a
`&mut` reference obtained from `get_mut`/`iter_mut`; keys are unchanged. -/
def modify (t : Tbl V) (k : Nat) (v : V) : Tbl V :=
  t.map (fun e => if e.1 == k then (k, v) else e)

/-- Key list of the table. -/
def keys (t : Tbl V) : List Nat :=
  t.map (·.1)

@[simp] theorem lookup_nil (k : Nat) : lookup ([] : Tbl V) k = none := rfl

@[simp] theorem lookup_cons (k : Nat) (e : Nat × V) (t : Tbl V) :
    lookup (e :: t) k = if e.1 = k then some e.2 else lookup t k := by
  by_cases h : e.1 = k
  · rw [lookup, List.find?_cons_of_pos _ (by simp [h]), if_pos h]
    rfl
  · rw [lookup, List.find?_cons_of_neg _ (by simp [h]), if_neg h]
    rfl

@[simp] theorem keys_nil : keys ([] : Tbl V) = [] := rfl

@[simp] theorem keys_cons (e : Nat × V) (t : Tbl V) :
    keys (e :: t) = e.1 :: keys t := rfl

@[simp] theorem erase_nil (k : Nat) : erase ([] : Tbl V) k = [] := rfl

theorem erase_cons (k : Nat) (e : Nat × V) (t : Tbl V) :
    erase (e :: t) k = if e.1 = k then erase t k else e :: erase t k := by
  by_cases h : e.1 = k <;> simp [erase, h]

theorem modify_cons (k : Nat) (v : V) (e : Nat × V) (t : Tbl V) :
    modify (e :: t) k v = (if e.1 = k then (k, v) else e) :: modify t k v := by
  by_cases h : e.1 = k <;> simp [modify, h]

@[simp] theorem lookup_erase_self (t : Tbl V) (k : Nat) :
    lookup (erase t k) k = none := by
  induction t with
  | nil => rfl
  | cons e t ih =>
    rw [erase_cons]
    by_cases h : e.1 = k
    · rw [if_pos h]
      exact ih
    · rw [if_neg h, lookup_cons, if_neg h]
      exact ih

theorem lookup_erase_ne (t : Tbl V) {k k' : Nat} (h : k' ≠ k) :
    lookup (erase t k) k' = lookup t k' := by
  induction t with
  | nil => rfl
  | cons e t ih =>
    rw [erase_cons]
    by_cases he : e.1 = k
    · rw [if_pos he, ih, lookup_cons, if_neg (by rw [he]; exact fun hk => h hk.symm)]
    · rw [if_neg he, lookup_cons, lookup_cons, ih]

@[simp] theorem lookup_insert_self (t : Tbl V) (k : Nat) (v : V) :
    lookup (insert t k v) k = some v := by
  rw [insert, lookup_cons, if_pos rfl]

theorem lookup_insert_ne (t : Tbl V) {k k' : Nat} (v : V) (h : k' ≠ k) :
    lookup (insert t k v) k' = lookup t k' := by
  rw [insert, lookup_cons, if_neg (fun hk => h hk.symm), lookup_erase_ne t h]

theorem lookup_modify_self (t : Tbl V) (k : Nat) (v : V) :
    lookup (modify t k v) k = (lookup t k).map (fun _ => v) := by
  induction t with
  | nil => rfl
  | cons e t ih =>
    rw [modify_cons]
    by_cases h : e.1 = k
    · rw [if_pos h, lookup_cons, lookup_cons, if_pos h]
      simp
    · rw [if_neg h, lookup_cons, lookup_cons, if_neg h, if_neg h, ih]

theorem lookup_modify_ne (t : Tbl V) {k k' : Nat} (v : V) (h : k' ≠ k) :
    lookup (modify t k v) k' = lookup t k' := by
  induction t with
  | nil => rfl
  | cons e t ih =>
    rw [modify_cons]
    by_cases he : e.1 = k
    · rw [if_pos he, lookup_cons, lookup_cons, ih,
        if_neg (fun hk => h hk.symm), if_neg (by rw [he]; exact fun hk => h hk.symm)]
    · rw [if_neg he, lookup_cons, lookup_cons, ih]

@[simp] theorem keys_modify (t : Tbl V) (k : Nat) (v : V) :
    keys (modify t k v) = keys t := by
  induction t with
  | nil => rfl
  | cons e t ih =>
    rw [modify_cons]
    by_cases h : e.1 = k
    · rw [if_pos h, keys_cons, keys_cons, ih, h]
    · rw [if_neg h, keys_cons, keys_cons, ih]

theorem mem_keys_iff_lookup_isSome (t : Tbl V) (k : Nat) :
    k ∈ keys t ↔ (lookup t k).isSome := by
  induction t with
  | nil => simp
  | cons e t ih =>
    rw [keys_cons, lookup_cons]
    by_cases h : e.1 = k
    · simp [h]
    · simp only [if_neg h, List.mem_cons, ih]
      constructor
      · rintro (hk | hk)
        · exact (h hk.symm).elim
        · exact hk
      · exact Or.inr

theorem erase_of_not_mem_keys {t : Tbl V} {k : Nat} (h : k ∉ keys t) :
    erase t k = t := by
  induction t with
  | nil => rfl
  | cons e t ih =>
    rw [keys_cons, List.mem_cons] at h
    push_neg at h
    rw [erase_cons, if_neg (fun he => h.1 he.symm), ih h.2]

theorem keys_erase_sublist (t : Tbl V) (k : Nat) :
    List.Sublist (keys (erase t k)) (keys t) := by
  unfold keys erase
  exact (List.filter_sublist t).map (·.1)

theorem keys_erase_nodup {t : Tbl V} (k : Nat) (h : (keys t).Nodup) :
    (keys (erase t k)).Nodup :=
  h.sublist (keys_erase_sublist t k)

theorem not_mem_keys_erase_self (t : Tbl V) (k : Nat) :
    k ∉ keys (erase t k) := by
  intro h
  rw [mem_keys_iff_lookup_isSome, lookup_erase_self] at h
  simp at h

theorem keys_insert_nodup {t : Tbl V} {k : Nat} (v : V) (h : (keys t).Nodup) :
    (keys (insert t k v)).Nodup := by
  rw [insert, keys_cons, List.nodup_cons]
  exact ⟨not_mem_keys_erase_self t k, keys_erase_nodup k h⟩

theorem insert_of_not_mem_keys {t : Tbl V} {k : Nat} (v : V) (h : k ∉ keys t) :
    insert t k v = (k, v) :: t := by
  rw [insert, erase_of_not_mem_keys h]

theorem lookup_of_mem {t : Tbl V} {k : Nat} {v : V}
    (hnd : (keys t).Nodup) (hmem : (k, v) ∈ t) : lookup t k = some v := by
  induction t with
  | nil => simp at hmem
  | cons e t ih =>
    rw [keys_cons, List.nodup_cons] at hnd
    rw [List.mem_cons] at hmem
    rcases hmem with hmem | hmem
    · rw [lookup_cons, ← hmem]
      simp
    · have hk : e.1 ≠ k := by
        intro he
        exact hnd.1 (by
          rw [mem_keys_iff_lookup_isSome, he, ih hnd.2 hmem]
          simp)
      rw [lookup_cons, if_neg hk, ih hnd.2 hmem]

theorem lookup_mem {t : Tbl V} {k : Nat} {v : V}
    (h : lookup t k = some v) : (k, v) ∈ t := by
  induction t with
  | nil => simp [lookup] at h
  | cons e t ih =>
    rw [lookup_cons] at h
    rw [List.mem_cons]
    by_cases he : e.1 = k
    · rw [if_pos he] at h
      obtain ⟨e1, e2⟩ := e
      simp only at he
      have hv : e2 = v := Option.some_inj.1 h
      exact Or.inl (by rw [← he, ← hv])
    · rw [if_neg he] at h
      exact Or.inr (ih h)

theorem perm_keys_erase {t : Tbl V} {k : Nat}
    (hnd : (keys t).Nodup) (hmem : k ∈ keys t) :
    List.Perm (keys t) (k :: keys (erase t k)) := by
  induction t with
  | nil => simp at hmem
  | cons e t ih =>
    rw [keys_cons, List.nodup_cons] at hnd
    rw [keys_cons, List.mem_cons] at hmem
    rcases hmem with hmem | hmem
    · rw [erase_cons, if_pos hmem.symm, keys_cons, hmem]
      rw [erase_of_not_mem_keys hnd.1]
    · by_cases he : e.1 = k
      · rw [erase_cons, if_pos he, keys_cons, he,
          erase_of_not_mem_keys (he ▸ hnd.1)]
      · have h1 : List.Perm (keys (e :: t)) (e.1 :: k :: keys (erase t k)) :=
          (ih hnd.2 hmem).cons e.1
        have h2 : List.Perm (e.1 :: k :: keys (erase t k))
            (k :: e.1 :: keys (erase t k)) := List.Perm.swap _ _ _
        have h3 : k :: e.1 :: keys (erase t k) = k :: keys (erase (e :: t) k) := by
          rw [erase_cons, if_neg he, keys_cons]
        exact (h1.trans h2).trans (h3 ▸ List.Perm.refl _)

end Tbl

/-! ## Bounded channels (`tokio::sync::mpsc`)

Each subscription has its own bounded channel; the Registry holds the send
half (`Collector.sender`) and the consumer adapter holds the receive half.
In the embedding the channel state is kept in a map from subscription id to
`Channel`, since distinct subscriptions never share a channel. -/

/-- State of one bounded `tokio::sync::mpsc` channel. -/
structure Channel where
  capacity : Nat
  queue : List Event
  closed : Bool
deriving DecidableEq, Repr

/-- Outcome of `Sender::try_send`. -/
inductive SendResult
  | ok
  | full
  | closed
deriving DecidableEq, Repr

/-- Model of `Sender::try_send`: fails with `Closed` when the receiver was
dropped, with `Full` when the queue is at capacity, otherwise enqueues. -/
def Channel.try_send (ch : Channel) (e : Event) : Channel × SendResult :=
  if ch.closed then (ch, .closed)
  else if ch.capacity ≤ ch.queue.length then (ch, .full)
  else ({ ch with queue := ch.queue ++ [e] }, .ok)

/-- Per-subscription channel states, keyed by subscription id. -/
abbrev Channels := Id → Channel

/-! ## The Registry (src/new/internal/registry.rs) -/

/-- `struct Collector<I>` of src/new/internal/registry.rs.  The `sender`
field (the send half of the subscription's channel) lives in the `Channels`
map keyed by the collector's id, since the embedding keeps channel state
separately from the registry record. -/
structure Collector where
  wd : Wd
  once : Bool
  filter : EventFilter
deriving DecidableEq

/-- `struct Watch` of src/new/internal/registry.rs. -/
structure Watch where
  interested : Finset Id
  path : Path
  event_filter : EventFilter
deriving DecidableEq

/-- `struct Registry<I>` of src/new/internal/registry.rs. -/
structure Registry where
  collectors : Tbl Collector
  watches : Tbl Watch
  move_cache : Tbl Path
deriving DecidableEq

/-- `Registry::new`. -/
def Registry.new : Registry := ⟨[], [], []⟩

/-- Call-recording state model of the `Binding` trait
(src/new/internal/binding.rs) as instantiated by the Registry: `create`
returns a fresh kernel identifier (a counter), `update` returns the
identifier it was given, no call fails.  The `created`, `updated` and
`removed` lists record the calls made, in order, so that claims about which
Binding calls happen can be stated.  Fresh identifiers model the kernel
handing out one descriptor per live watch; identifier reuse for aliased
paths is the open question the spec flags and no claim depends on it. -/
structure BindingState where
  next_wd : Wd
  created : List Wd
  updated : List (Wd × Path × EventFilter)
  removed : List Wd
deriving DecidableEq

/-- Fresh binding, no calls recorded. -/
def BindingState.new : BindingState := ⟨0, [], [], []⟩

/-- `Binding::create(path, filter)`: returns a fresh identifier. -/
def BindingState.create (b : BindingState) (_path : Path) (_filter : EventFilter) :
    Wd × BindingState :=
  (b.next_wd, { b with next_wd := b.next_wd + 1, created := b.created ++ [b.next_wd] })

/-- `Binding::update(wd, path, filter)`: records the call; returns `wd`. -/
def BindingState.update (b : BindingState) (wd : Wd) (path : Path)
    (filter : EventFilter) : BindingState :=
  { b with updated := b.updated ++ [(wd, path, filter)] }

/-- `Binding::remove(wd)`: records the call. -/
def BindingState.remove (b : BindingState) (wd : Wd) : BindingState :=
  { b with removed := b.removed ++ [wd] }

/-- `struct CollectorRequest` of the bridge module: `{id, path, once, sender,
filter}`; the `sender` channel half is carried next to the request where the
embedding needs it. -/
structure CollectorRequest where
  id : Id
  path : Path
  once : Bool
  filter : EventFilter
deriving DecidableEq

/-- `Watch::has_interest`. -/
def Watch.has_interest (w : Watch) : Bool :=
  decide (w.interested ≠ ∅)

/-- `Watch::register` (src/new/internal/registry.rs lines 277-290).

The source body is:

    debug_assert!(!self.interested.insert(id), "Interest was added to the same watch twice");
    if self.event_filter.contains(filter) { return None; }
    self.event_filter |= filter;
    Some(self.event_filter)

`debug_assert!` only evaluates its argument when debug assertions are
compiled in (`cfg!(debug_assertions)`), so in release builds the
`interested.insert(id)` side effect inside it does not run and `interested`
is left unchanged; this definition embeds that release-build semantics.
The assertion condition that a debug build evaluates (and panics on when
false) is embedded separately as `Watch.register_assert_passes`. -/
def Watch.register (w : Watch) (_id : Id) (filter : EventFilter) :
    Watch × Option EventFilter :=
  if filter ⊆ w.event_filter then (w, none)
  else
    let nf := w.event_filter ∪ filter
    ({ w with event_filter := nf }, some nf)

/-- The condition asserted by the `debug_assert!` in `Watch::register`, as a
debug build evaluates it: `!self.interested.insert(id)`.  `HashSet::insert`
returns `true` exactly when the value was newly inserted, so the asserted
condition is `id ∈ w.interested` (the id must already be present for the
assertion to pass; a debug build panics otherwise). -/
def Watch.register_assert_passes (w : Watch) (id : Id) : Bool :=
  decide (id ∈ w.interested)

/-- Tail of `Watch::deregister` after `interested.remove(&id)` succeeded
(`w1` is the watch with the id already erased, `old_filter` the filter
before recomputation): early return on empty interest, otherwise recompute
`event_filter` as the union of the remaining collectors\x27 filters (panic —
`none` — when a remaining interested id has no collector) and report the
new filter exactly when it changed. -/
def Watch.deregister_rest (w1 : Watch) (old_filter : EventFilter)
    (get : Id → Option EventFilter) : Option (Watch × Option EventFilter) :=
  if !w1.has_interest then some (w1, none)
  else if decide (∀ i ∈ w1.interested, (get i).isSome) then
    some ({ w1 with event_filter := w1.interested.sup (fun i => (get i).getD ∅) },
      if w1.interested.sup (fun i => (get i).getD ∅) = old_filter then none
      else some (w1.interested.sup (fun i => (get i).getD ∅)))
  else none

/-- `Watch::deregister` (src/new/internal/registry.rs lines 292-325): remove
`id` from `interested` (no-op returning `None` when absent), then
`deregister_rest`. -/
def Watch.deregister (w : Watch) (id : Id) (get : Id → Option EventFilter) :
    Option (Watch × Option EventFilter) :=
  if id ∈ w.interested then
    Watch.deregister_rest { w with interested := w.interested.erase id }
      w.event_filter get
  else some (w, none)

/-- `Registry::register_interest` (src/new/internal/registry.rs lines
100-143).  Looks for an existing watch with the same path; on a hit performs
`Watch::register` (updating the binding when the aggregate filter grew); on
a miss creates a binding watch plus a fresh `Watch` and `Collector`.  Note
that on a hit the source inserts no `Collector` record for the new id. -/
def Registry.register_interest (r : Registry) (b : BindingState)
    (req : CollectorRequest) : Registry × BindingState :=
  match r.watches.find? (fun e => e.2.path == req.path) with
  | some (wd, it) =>
    match it.register req.id req.filter with
    | (it1, some new_filter) =>
      ({ r with watches := Tbl.modify r.watches wd it1 },
       b.update wd it.path new_filter)
    | (it1, none) =>
      ({ r with watches := Tbl.modify r.watches wd it1 }, b)
  | none =>
    let cr := b.create req.path req.filter
    let new_watch : Watch := ⟨{req.id}, req.path, req.filter⟩
    let new_collector : Collector := ⟨cr.1, req.once, req.filter⟩
    ({ r with watches := Tbl.insert r.watches cr.1 new_watch,
              collectors := Tbl.insert r.collectors req.id new_collector },
     cr.2)

/-- `Registry::deregister_interest` (src/new/internal/registry.rs lines
146-174).  Removes the collector (a no-op when absent), removes its interest
from its watch, narrows the binding filter when it shrank, and removes the
watch plus the binding watch when the last interest disappeared.  `none`
embeds the `unreachable!` panics. -/
def Registry.deregister_interest (r : Registry) (b : BindingState) (id : Id) :
    Option (Registry × BindingState) :=
  match Tbl.lookup r.collectors id with
  | none => some (r, b)
  | some removing =>
    let collectors1 := Tbl.erase r.collectors id
    match Tbl.lookup r.watches removing.wd with
    | none => none
    | some watch =>
      match watch.deregister id
          (fun i => (Tbl.lookup collectors1 i).map (·.filter)) with
      | none => none
      | some (watch1, upd) =>
        let b1 := match upd with
          | some new_filter => b.update removing.wd watch.path new_filter
          | none => b
        if watch1.has_interest then
          some ({ r with collectors := collectors1,
                         watches := Tbl.modify r.watches removing.wd watch1 }, b1)
        else
          some ({ r with collectors := collectors1,
                         watches := Tbl.erase r.watches removing.wd },
                b1.remove removing.wd)

/-- `Registry::cache_or_take` (src/new/internal/registry.rs lines 74-91):
pairs a move event through the cookie cache.  `fr` is the source's `from`
flag (`true` for `MoveFrom`). -/
def Registry.cache_or_take (r : Registry) (cookie : Cookie) (fr : Bool)
    (path : Path) : Registry × Option Event :=
  match Tbl.lookup r.move_cache cookie with
  | some other =>
    let r1 := { r with move_cache := Tbl.erase r.move_cache cookie }
    if fr then (r1, some ⟨path, .Move (some other)⟩)
    else (r1, some ⟨other, .Move (some path)⟩)
  | none =>
    ({ r with move_cache := Tbl.insert r.move_cache cookie path }, none)

/-- One step of the `filter_map` body of `Registry::convert_event`: the fixed
binding-event-type to user-event-type table, with the two move arms going
through `cache_or_take`. -/
def Registry.convert_one (r : Registry) (path : Path) (ty : BindingEventType) :
    Registry × Option Event :=
  match ty with
  | .Open => (r, some ⟨path, .Open⟩)
  | .CloseNoModify => (r, some ⟨path, .Close false⟩)
  | .CloseModify => (r, some ⟨path, .Close true⟩)
  | .Read => (r, some ⟨path, .Read⟩)
  | .Write => (r, some ⟨path, .Write⟩)
  | .Metadata => (r, some ⟨path, .Metadata⟩)
  | .Create => (r, some ⟨path, .Create⟩)
  | .Delete => (r, some ⟨path, .Delete⟩)
  | .SelfRemoved => (r, some ⟨path, .Delete⟩)
  | .MoveFrom cookie => r.cache_or_take cookie true path
  | .MoveTo cookie => r.cache_or_take cookie false path

/-- The `filter_map` over the event's type list in `Registry::convert_event`,
threading the move-cache mutations left to right. -/
def Registry.convert_list (r : Registry) (path : Path) :
    List BindingEventType → Registry × List Event
  | [] => (r, [])
  | ty :: rest =>
    match r.convert_one path ty with
    | (r1, oe) =>
      match r1.convert_list path rest with
      | (r2, es) => (r2, match oe with | some e => e :: es | none => es)

/-- `Registry::convert_event` (src/new/internal/registry.rs lines 177-216):
resolves the effective path (the event's own path, else the watch's recorded
path, else drop the event) and translates the binding event types. -/
def Registry.convert_event (r : Registry) (wd : Wd) (event : BindingEvent) :
    Registry × List Event :=
  match event.path.orElse (fun _ => (Tbl.lookup r.watches wd).map (·.path)) with
  | none => (r, [])
  | some path => r.convert_list path event.ty

/-- The inner `for event in events.iter()` loop of `try_send_events` for one
collector: delivers each matching event with `try_send`.  Returns the final
channel state and whether the collector was marked for removal.  Stopping
early embeds `continue 'collectors` (a full send skips the rest of this
collector's events without marking it; a closed send or a delivered event on
a `once` collector marks it and stops). -/
def send_to_collector (c : Collector) (ch : Channel) :
    List Event → Channel × Bool
  | [] => (ch, false)
  | e :: rest =>
    if e.contained_in c.filter then
      match ch.try_send e with
      | (_, .full) => (ch, false)
      | (_, .closed) => (ch, true)
      | (ch1, .ok) =>
        if c.once then (ch1, true) else send_to_collector c ch1 rest
    else send_to_collector c ch rest

/-- One iteration of the outer `for event in events` loop of
`Registry::try_send_events`: convert the event, look the watch up (skip when
gone), then run the `'collectors` loop over the interested set.  Iterations
of that loop touch disjoint state for distinct ids — each collector has its
own channel, and `to_remove` only accumulates — so the loop is embedded
pointwise over `interested`, which also makes the result independent of the
`HashSet` iteration order.  `none` embeds the `unreachable!` panic for an
interested id without a collector record. -/
def Registry.process_event (r : Registry) (chans : Channels)
    (to_remove : Finset Id) (event : BindingEvent) :
    Option (Registry × Channels × Finset Id) :=
  match r.convert_event event.wd event with
  | (r1, events) =>
    match Tbl.lookup r1.watches event.wd with
    | none => some (r1, chans, to_remove)
    | some watch =>
      if decide (∀ i ∈ watch.interested, (Tbl.lookup r1.collectors i).isSome) then
        let outcome := fun i =>
          match Tbl.lookup r1.collectors i with
          | some c => send_to_collector c (chans i) events
          | none => (chans i, false)
        some (r1,
          fun i => if i ∈ watch.interested then (outcome i).1 else chans i,
          to_remove ∪ watch.interested.filter (fun i => (outcome i).2))
      else none

/-- The fold of `process_event` over the batch, accumulating `to_remove`. -/
def Registry.try_send_events_from (r : Registry) (chans : Channels)
    (to_remove : Finset Id) :
    List BindingEvent → Option (Registry × Channels × Finset Id)
  | [] => some (r, chans, to_remove)
  | event :: rest =>
    match r.process_event chans to_remove event with
    | none => none
    | some (r1, ch1, tr1) => r1.try_send_events_from ch1 tr1 rest

/-- `Registry::try_send_events` (src/new/internal/registry.rs lines 221-272):
sends a batch of binding events to the listening collectors and returns the
set of subscription ids to remove afterwards. -/
def Registry.try_send_events (r : Registry) (chans : Channels)
    (events : List BindingEvent) : Option (Registry × Channels × Finset Id) :=
  r.try_send_events_from chans ∅ events

/-! ## Shared state and the public handle
(src/shared.rs, src/new/internal.rs, src/new/external.rs) -/

/-- Error taxonomy, `enum AnotifyErrorType` of src/errors.rs (the variant set
the handle surface uses; `Unknown` drops its boxed source error). -/
inductive AnotifyErrorType
  | DoesNotExist
  | ExpectedDir
  | ExpectedFile
  | FileRemoved
  | SystemResourceLimit
  | NoPermission
  | InvalidFilePath
  | Closed
  | Unknown
deriving DecidableEq, Repr

/-- Error value: `AnotifyError` carries an optional message, an optional path
and a type (the backtrace field is diagnostic only and not modelled). -/
structure AnotifyError where
  message : Option String
  path : Option Path
  ty : AnotifyErrorType
deriving DecidableEq, Repr

/-- `enum Request` of src/bridge.rs: requests sent from handles to the
worker.  The `Create` payload is a `CollectorRequest`; the channel the
request carries as its `sender` field travels alongside.  (The `new` module
bridge omits `Close`; nothing here depends on it.) -/
inductive Request
  | Create (req : CollectorRequest) (sender : Channel)
  | Drop (id : Id)
  | Close
deriving DecidableEq

/-- `struct SharedState` (src/shared.rs and src/new/internal.rs): identifier
allocator, per-subscription channel capacity, request channel sender.
`requests_open` is whether the worker still holds the request receiver
(`Sender::send` fails exactly when the receiver was dropped); `requests` is
the queue of successfully sent requests.  Awaiting capacity on the bounded
request queue suspends but cannot fail, so the queue is unbounded here. -/
structure SharedState where
  next_id : Nat
  channel_size : Nat
  requests_open : Bool
  requests : List Request
deriving DecidableEq

/-- `SharedState::with_capacity`. -/
def SharedState.with_capacity (channel_size : Nat) : SharedState :=
  ⟨0, channel_size, true, []⟩

/-- `SharedState::request` (src/shared.rs lines 48-70): creates the
per-subscription bounded channel with the configured capacity, allocates a
fresh id (the counter bumps whether or not the send succeeds, matching the
unconditional `fetch_add`), sends a `Create` request, and returns
`Some((id, rx))` on success and `None` when the request receiver is gone. -/
def SharedState.request (s : SharedState) (once : Bool) (path : Path)
    (filter : EventFilter) : SharedState × Option (Id × Channel) :=
  let rx : Channel := ⟨s.channel_size, [], false⟩
  let id := s.next_id
  let req : CollectorRequest := ⟨id, path, once, filter⟩
  let s1 := { s with next_id := s.next_id + 1 }
  if s1.requests_open then
    ({ s1 with requests := s1.requests ++ [Request.Create req rx] },
     some (id, rx))
  else (s1, none)

/-- `AnotifyHandle::next` (src/new/external.rs lines 225-238): requests a
single-shot subscription (`once = true`) and surfaces a failed request as a
`Closed` error carrying the path. -/
def AnotifyHandle.next (s : SharedState) (path : Path) (filter : EventFilter) :
    SharedState × Except AnotifyError (Id × Channel) :=
  match s.request true path filter with
  | (s1, some idrecv) => (s1, .ok idrecv)
  | (s1, none) => (s1, .error ⟨none, some path, .Closed⟩)

/-- `AnotifyHandle::watch` (src/new/external.rs lines 240-253): requests a
subscription for a stream.  The source passes `true` as the `once` flag of
`SharedState::request` — the same value `next` passes. -/
def AnotifyHandle.watch (s : SharedState) (path : Path) (filter : EventFilter) :
    SharedState × Except AnotifyError (Id × Channel) :=
  match s.request true path filter with
  | (s1, some idrecv) => (s1, .ok idrecv)
  | (s1, none) => (s1, .error ⟨none, some path, .Closed⟩)

/-! ## `InotifyBinding::poll_events` (src/new/internal/inotify.rs lines 228-269)

The function is driven by two external effects: the readiness poll on the
inotify fd (`AsyncFd::poll_read_ready_mut`) and the successive
`read_events` calls on the kernel handle.  The embedding takes the outcomes
of those effects as inputs: one `Readiness` for the guard acquisition and a
list of `ReadOutcome`s consumed in order by the read loop.  Raw kernel
events appear already converted (`convert_event` maps each `InotifyEvent`
to a `BindingEvent` one-to-one; the mask translation is orthogonal to the
claims settled here). -/

/-- Outcome of `poll_read_ready_mut`. -/
inductive Readiness
  | pending
  | ready
  | errWouldBlock
  | err (code : Nat)
deriving DecidableEq, Repr

/-- Outcome of one `read_events` call: a batch of events, `EWOULDBLOCK`, or
another errno. -/
inductive ReadOutcome
  | ok (events : List BindingEvent)
  | wouldBlock
  | err (code : Nat)
deriving DecidableEq, Repr

/-- Result of `poll_events`: `Poll::Pending`, `Poll::Ready(Ok(batch))` or
`Poll::Ready(Err(e))`. -/
inductive PollResult
  | pending
  | readyOk (events : List BindingEvent)
  | readyErr (code : Nat)
deriving DecidableEq, Repr

/-- The `loop` of `poll_events`: keep reading, accumulating converted
events, until `read_events` yields `EWOULDBLOCK` (return the accumulated
batch) or an error (return it).  `none` is the modelling artifact for a
trace that ends before the loop does (the source loops until a terminal
read outcome). -/
def read_loop (acc : List BindingEvent) :
    List ReadOutcome → Option PollResult
  | [] => none
  | .ok new :: rest => read_loop (acc ++ new) rest
  | .wouldBlock :: _ => some (.readyOk acc)
  | .err code :: _ => some (.readyErr code)

/-- `InotifyBinding::poll_events`: `Pending` while the fd is not ready (a
`WouldBlock` readiness error is also reported as `Pending`), a readiness
error is returned, and otherwise the read loop runs. -/
def InotifyBinding.poll_events (rdy : Readiness)
    (reads : List ReadOutcome) : Option PollResult :=
  match rdy with
  | .pending => some .pending
  | .errWouldBlock => some .pending
  | .err code => some (.readyErr code)
  | .ready => read_loop [] reads

/-! ## Claim theorems -/

/-! ### Shared concrete states used by the evaluation theorems -/

/-- Registry holding one watch (kernel id 1, path c, aggregate filter
containing Write and Delete) with one interested stream collector
(subscription 0, `once = false`), and an empty move cache. -/
def sampleRegistry1 : Registry :=
  ⟨[(0, ⟨1, false, {.Write, .Delete}⟩)],
   [(1, ⟨{0}, "c", {.Write, .Delete}⟩)],
   []⟩

/-- Channels: every subscription has an open channel of capacity 2. -/
def sampleChans : Channels := fun _ => ⟨2, [], false⟩

/-- State after registering subscription 0 on path a with filter Write,
starting from an empty registry and a fresh binding. -/
def afterReg0 : Registry × BindingState :=
  Registry.new.register_interest BindingState.new ⟨0, "a", false, {.Write}⟩

/-- State after additionally registering subscription 1 on path a with
filter Open (the path already has a watch, so the found branch runs). -/
def afterReg01 : Registry × BindingState :=
  afterReg0.1.register_interest afterReg0.2 ⟨1, "a", false, {.Open}⟩

/-- C1: a batch holding a `SelfRemoved` binding event for watch 1 is claimed
to make `try_send_events` mark every interested collector for removal and
drop the `Watch` record.  Evaluating the code on such a batch shows
otherwise: the final `Delete` event is delivered (the collector's filter
contains Delete), but the returned removal set is empty and the `Watch`
record for kernel id 1 is still in the watch table unchanged.  (The watch
is also never torn down elsewhere: `try_send_events` takes no binding, and
the worker only deregisters the ids in the returned set, which is empty.) -/
theorem C1_selfremoved_no_teardown :
    (sampleRegistry1.try_send_events sampleChans [⟨1, none, [.SelfRemoved]⟩]).map
        (fun s => (Tbl.lookup s.1.watches 1, (s.2.1 0).queue, s.2.2)) =
      some (some ⟨{0}, "c", {.Write, .Delete}⟩, [⟨"c", .Delete⟩], (∅ : Finset Id)) := by
  decide

/-- C2: registering a second subscription (id 1) for a path that already has
a watch is claimed to leave the tables bidirectionally consistent with the
new id installed.  Evaluating `register_interest` shows the found branch
inserts no `Collector` record for id 1 (and, the insert being inside the
`debug_assert!`, records no interest either): the subscription is silently
dropped, while the first collector is untouched. -/
theorem C2_second_collector_not_installed :
    Tbl.lookup afterReg01.1.collectors 1 = none ∧
    (Tbl.lookup afterReg01.1.watches 0).map (fun w => decide (1 ∈ w.interested)) =
      some false ∧
    Tbl.lookup afterReg01.1.collectors 0 = some ⟨0, false, {.Write}⟩ := by
  decide

/-- C10: the `debug_assert!` in `Watch::register` is claimed to hold at the
call site where a second, distinct collector registers against an existing
watch.  At exactly that call site (the watch `register_interest` finds for
path a holds interest `{0}` and the incoming id is 1) the asserted
condition evaluates to `false`, so a debug build panics; the condition
evaluates to `true` precisely in the double-registration case its own
message says it guards against. -/
theorem C10_register_assert_inverted :
    (afterReg0.1.watches.find? (fun e => e.2.path == "a")).map
        (fun e => Watch.register_assert_passes e.2 1) = some false ∧
    Watch.register_assert_passes ⟨{1}, "a", ∅⟩ 1 = true := by
  decide

/-- State after registering subscription 0 on path p with `once = true`,
exactly the request `AnotifyHandle::watch` enqueues. -/
def afterRegOnce : Registry × BindingState :=
  Registry.new.register_interest BindingState.new ⟨0, "p", true, {.Write}⟩

/-- C4: `watch` is claimed to register with the single-shot flag unset.
Evaluating the code: `AnotifyHandle::watch` passes `true` as the `once`
argument of `SharedState::request` (the same value `next` passes), so the
enqueued `Create` request carries `once = true`, the registered collector
carries `once = true`, and after one successfully delivered matching event
`try_send_events` marks the subscription for removal — the stream ends
after a single event instead of continuing. -/
theorem C4_watch_registers_single_shot :
    (AnotifyHandle.watch (SharedState.with_capacity 2) ("p") {.Write}).1.requests =
      [Request.Create ⟨0, "p", true, {.Write}⟩ ⟨2, [], false⟩] ∧
    Tbl.lookup afterRegOnce.1.collectors 0 = some ⟨0, true, {.Write}⟩ ∧
    (afterRegOnce.1.try_send_events sampleChans [⟨0, some ("p"), [.Write]⟩]).map
        (fun s => ((s.2.1 0).queue, s.2.2)) =
      some ([⟨"p", .Write⟩], ({0} : Finset Id)) := by
  decide

/-! ### C8: `poll_events` and empty batches -/

/-- Concatenation of the event batches read before the first terminal
outcome: the batch `poll_events` accumulates when the fd was ready. -/
def reads_prefix_concat : List ReadOutcome → List BindingEvent
  | [] => []
  | .ok new :: rest => new ++ reads_prefix_concat rest
  | .wouldBlock :: _ => []
  | .err _ :: _ => []

/-- Helper: the read loop never returns `Pending`, and a returned batch is
the accumulator plus everything read before the first `EWOULDBLOCK`. -/
theorem read_loop_spec (reads : List ReadOutcome) : ∀ acc res,
    read_loop acc reads = some res →
    res ≠ .pending ∧
      ∀ events, res = .readyOk events → events = acc ++ reads_prefix_concat reads := by
  induction reads with
  | nil =>
    intro acc res h
    simp [read_loop] at h
  | cons o rest ih =>
    intro acc res h
    cases o with
    | ok new =>
      rw [read_loop] at h
      obtain ⟨h1, h2⟩ := ih (acc ++ new) res h
      refine ⟨h1, fun events he => ?_⟩
      rw [h2 events he, reads_prefix_concat]
      simp
    | wouldBlock =>
      rw [read_loop] at h
      obtain rfl : PollResult.readyOk acc = res := Option.some_inj.1 h
      exact ⟨by simp, fun events he => by
        obtain rfl : acc = events := by cases he; rfl
        simp [reads_prefix_concat]⟩
    | err code =>
      rw [read_loop] at h
      obtain rfl : PollResult.readyErr code = res := Option.some_inj.1 h
      exact ⟨by simp, fun events he => by cases he⟩

/-- C8 counterexample: the claim states `poll_events` never returns a ready
result with an empty batch.  When the fd reports ready but the first
`read_events` yields `EWOULDBLOCK` (spurious readiness), the code returns
`Poll::Ready(Ok(vec![]))` — an empty ready batch, which is neither Pending,
nor an error, nor non-empty. -/
theorem C8_empty_ready_batch :
    InotifyBinding.poll_events .ready [.wouldBlock] = some (.readyOk []) ∧
    ¬ (InotifyBinding.poll_events .ready [.wouldBlock] = some .pending ∨
       (∃ code, InotifyBinding.poll_events .ready [.wouldBlock] =
          some (.readyErr code)) ∨
       (∃ events, events ≠ ([] : List BindingEvent) ∧
          InotifyBinding.poll_events .ready [.wouldBlock] =
            some (.readyOk events))) := by
  refine ⟨rfl, ?_⟩
  rintro (h | ⟨code, h⟩ | ⟨events, hne, h⟩)
  · exact absurd (Option.some_inj.1 h) (by simp [InotifyBinding.poll_events, read_loop] at h)
  · exact absurd (Option.some_inj.1 h) (by simp [InotifyBinding.poll_events, read_loop] at h)
  · have : InotifyBinding.poll_events .ready [.wouldBlock] = some (.readyOk []) := rfl
    rw [this] at h
    have he : ([] : List BindingEvent) = events := by
      cases Option.some_inj.1 h
      rfl
    exact hne he.symm

/-- C8 amended: `poll_events` returns Pending exactly when the readiness
poll is Pending or fails with WouldBlock; a ready batch arises only on a
ready fd and equals the concatenation of the batches read before the first
`EWOULDBLOCK` — which is empty when the first read yields `EWOULDBLOCK`
(so a ready empty batch is possible); errors are returned as Ready(Err). -/
theorem C8_poll_events_classification (rdy : Readiness)
    (reads : List ReadOutcome) (res : PollResult)
    (h : InotifyBinding.poll_events rdy reads = some res) :
    (res = .pending ↔ rdy = .pending ∨ rdy = .errWouldBlock) ∧
    (∀ events, res = .readyOk events →
      rdy = .ready ∧ events = reads_prefix_concat reads) := by
  cases rdy with
  | pending =>
    obtain rfl : PollResult.pending = res := Option.some_inj.1 h
    exact ⟨by simp, fun events he => by cases he⟩
  | errWouldBlock =>
    obtain rfl : PollResult.pending = res := Option.some_inj.1 h
    exact ⟨by simp, fun events he => by cases he⟩
  | err code =>
    obtain rfl : PollResult.readyErr code = res := Option.some_inj.1 h
    exact ⟨by simp, fun events he => by cases he⟩
  | ready =>
    obtain ⟨h1, h2⟩ := read_loop_spec reads [] res h
    refine ⟨by simp [h1], fun events he => ⟨rfl, ?_⟩⟩
    rw [h2 events he]
    simp

/-- Witness for `C8_poll_events_classification` at a concrete trace: ready
fd, one batch of one Write event, then `EWOULDBLOCK`. -/
theorem C8_poll_events_classification_witness :
    (PollResult.readyOk [⟨1, none, [.Write]⟩] = .pending ↔
      Readiness.ready = .pending ∨ Readiness.ready = .errWouldBlock) ∧
    (∀ events, PollResult.readyOk [⟨1, none, [.Write]⟩] = .readyOk events →
      Readiness.ready = .ready ∧
      events = reads_prefix_concat [.ok [⟨1, none, [.Write]⟩], .wouldBlock]) :=
  C8_poll_events_classification .ready [.ok [⟨1, none, [.Write]⟩], .wouldBlock]
    (.readyOk [⟨1, none, [.Write]⟩]) rfl

/-! ### C5: rename pairing -/

/-- Processing of two binding events through `convert_event` in sequence
(the move cache threads through), returning the final registry and the
two converted event lists concatenated. -/
def convert_two (r : Registry) (wd1 wd2 : Wd) (e1 e2 : BindingEvent) :
    Registry × List Event :=
  match r.convert_event wd1 e1 with
  | (r1, evs1) =>
    match r1.convert_event wd2 e2 with
    | (r2, evs2) => (r2, evs1 ++ evs2)

/-- C5: for a cookie with no cache entry, a `MoveFrom{c}` at path P and a
`MoveTo{c}` at path Q processed through `convert_event` in either order
produce exactly one user event — `Move{to: Q}` at path P — and leave no
cache entry for the cookie. -/
@[simp] theorem convert_list_nil (r : Registry) (p : Path) :
    r.convert_list p [] = (r, []) := rfl

theorem C5_move_pairing (r : Registry) (c : Cookie) (P Q : Path) (wd1 wd2 : Wd)
    (h : Tbl.lookup r.move_cache c = none) :
    ((convert_two r wd1 wd2 ⟨wd1, some P, [.MoveFrom c]⟩
        ⟨wd2, some Q, [.MoveTo c]⟩).2 = [⟨P, .Move (some Q)⟩] ∧
      Tbl.lookup (convert_two r wd1 wd2 ⟨wd1, some P, [.MoveFrom c]⟩
        ⟨wd2, some Q, [.MoveTo c]⟩).1.move_cache c = none) ∧
    ((convert_two r wd1 wd2 ⟨wd1, some Q, [.MoveTo c]⟩
        ⟨wd2, some P, [.MoveFrom c]⟩).2 = [⟨P, .Move (some Q)⟩] ∧
      Tbl.lookup (convert_two r wd1 wd2 ⟨wd1, some Q, [.MoveTo c]⟩
        ⟨wd2, some P, [.MoveFrom c]⟩).1.move_cache c = none) := by
  simp [convert_two, Registry.convert_event, Registry.convert_list,
    Registry.convert_one, Registry.cache_or_take, Option.orElse, h]

/-- Witness for `C5_move_pairing`: empty registry, cookie 7, rename from
x to y, both events on watch 1. -/
theorem C5_move_pairing_witness :
    ((convert_two Registry.new 1 1 ⟨1, some ("x"), [.MoveFrom 7]⟩
        ⟨1, some ("y"), [.MoveTo 7]⟩).2 = [⟨"x", .Move (some ("y"))⟩] ∧
      Tbl.lookup (convert_two Registry.new 1 1 ⟨1, some ("x"), [.MoveFrom 7]⟩
        ⟨1, some ("y"), [.MoveTo 7]⟩).1.move_cache 7 = none) ∧
    ((convert_two Registry.new 1 1 ⟨1, some ("y"), [.MoveTo 7]⟩
        ⟨1, some ("x"), [.MoveFrom 7]⟩).2 = [⟨"x", .Move (some ("y"))⟩] ∧
      Tbl.lookup (convert_two Registry.new 1 1 ⟨1, some ("y"), [.MoveTo 7]⟩
        ⟨1, some ("x"), [.MoveFrom 7]⟩).1.move_cache 7 = none) :=
  C5_move_pairing Registry.new 7 ("x") ("y") 1 1 rfl

/-! ### C6: filter aggregation on a shared path -/

/-- Two successive `register_interest` calls for the same path, from an
empty registry and a fresh binding (so the created watch gets kernel id 0). -/
def regTrace2 (idA idB : Id) (p : Path) (oA oB : Bool) (A B : EventFilter) :
    Registry × BindingState :=
  match Registry.new.register_interest BindingState.new ⟨idA, p, oA, A⟩ with
  | (r1, b1) => r1.register_interest b1 ⟨idB, p, oB, B⟩

/-- Helper: closed-form evaluation of the two-registration trace.  The
second call finds the watch; when its filter is already covered nothing
changes and no binding call is recorded, otherwise the aggregate filter
becomes the union and one `update` call is recorded. -/
theorem regTrace2_eval (idA idB : Id) (p : Path) (oA oB : Bool)
    (A B : EventFilter) :
    regTrace2 idA idB p oA oB A B =
      if B ⊆ A then
        (⟨[(idA, ⟨0, oA, A⟩)], [(0, ⟨{idA}, p, A⟩)], []⟩,
         ⟨1, [0], [], []⟩)
      else
        (⟨[(idA, ⟨0, oA, A⟩)], [(0, ⟨{idA}, p, A ∪ B⟩)], []⟩,
         ⟨1, [0], [(0, p, A ∪ B)], []⟩) := by
  by_cases hBA : B ⊆ A <;>
    simp [regTrace2, Registry.register_interest, Registry.new, BindingState.new,
      BindingState.create, BindingState.update, Watch.register, hBA,
      Tbl.modify, Tbl.insert, Tbl.erase, List.find?]

/-- C6: registering filters A then B on one path leaves the watch's
aggregate `event_filter` equal to the union, independently of order; when
the second filter is already contained the state (binding call log
included) is exactly the state after the first registration, and otherwise
exactly one `Binding::update` with the union is recorded. -/
theorem C6_filter_union_order_independent (idA idB : Id) (p : Path)
    (oA oB : Bool) (A B : EventFilter) :
    ((Tbl.lookup (regTrace2 idA idB p oA oB A B).1.watches 0).map
        Watch.event_filter = some (A ∪ B)) ∧
    ((Tbl.lookup (regTrace2 idB idA p oB oA B A).1.watches 0).map
        Watch.event_filter = some (A ∪ B)) ∧
    (B ⊆ A →
      (regTrace2 idA idB p oA oB A B).2 = (⟨1, [0], [], []⟩ : BindingState) ∧
      (Tbl.lookup (regTrace2 idA idB p oA oB A B).1.watches 0).map
        Watch.event_filter = some A) ∧
    (¬ B ⊆ A →
      (regTrace2 idA idB p oA oB A B).2.updated = [(0, p, A ∪ B)]) := by
  rw [regTrace2_eval, regTrace2_eval]
  refine ⟨?_, ?_, ?_, ?_⟩
  · by_cases hBA : B ⊆ A <;> simp [hBA]
  · by_cases hAB : A ⊆ B <;> simp [hAB, Finset.union_comm]
  · intro hBA
    simp [hBA]
  · intro hBA
    simp [hBA]

/-- Witness for `C6_filter_union_order_independent` with A containing only
Write and B containing only Open (so the union case runs). -/
theorem C6_filter_union_witness :
    ((Tbl.lookup (regTrace2 0 1 ("b") false false {.Write} {.Open}).1.watches 0).map
        Watch.event_filter = some ({.Write} ∪ {.Open})) ∧
    ((Tbl.lookup (regTrace2 1 0 ("b") false false {.Open} {.Write}).1.watches 0).map
        Watch.event_filter = some ({.Write} ∪ {.Open})) ∧
    (({.Open} : EventFilter) ⊆ {.Write} →
      (regTrace2 0 1 ("b") false false {.Write} {.Open}).2 =
        (⟨1, [0], [], []⟩ : BindingState) ∧
      (Tbl.lookup (regTrace2 0 1 ("b") false false {.Write} {.Open}).1.watches 0).map
        Watch.event_filter = some {.Write}) ∧
    (¬ ({.Open} : EventFilter) ⊆ {.Write} →
      (regTrace2 0 1 ("b") false false {.Write} {.Open}).2.updated =
        [(0, ("b"), {.Write} ∪ {.Open})]) :=
  C6_filter_union_order_independent 0 1 ("b") false false {.Write} {.Open}

/-! ### C9: `SharedState::request` fails only when closed -/

/-- C9: the request operation fails (returns `None`, surfaced by the handle
as a `Closed` error) exactly when the worker's request receiver is gone;
when the channel is open it allocates the next counter id, creates a
channel of the configured capacity, enqueues the corresponding `Create`
request and returns the pair. -/
theorem C9_request_fails_only_when_closed (s : SharedState) (once : Bool)
    (p : Path) (F : EventFilter) :
    ((s.request once p F).2 = none ↔ s.requests_open = false) ∧
    (s.requests_open = true →
      (s.request once p F).2 = some (s.next_id, ⟨s.channel_size, [], false⟩) ∧
      (s.request once p F).1.requests = s.requests ++
        [Request.Create ⟨s.next_id, p, once, F⟩ ⟨s.channel_size, [], false⟩] ∧
      (s.request once p F).1.next_id = s.next_id + 1 ∧
      (s.request once p F).1.requests_open = true) ∧
    ((AnotifyHandle.next s p F).2 =
        Except.error ⟨none, some p, .Closed⟩ ↔ s.requests_open = false) := by
  cases hopen : s.requests_open <;>
    simp [SharedState.request, AnotifyHandle.next, hopen]

/-- Witness for `C9_request_fails_only_when_closed` on an open shared state
with counter 5 and capacity 3. -/
theorem C9_request_witness :
    (((⟨5, 3, true, []⟩ : SharedState).request false ("q") {.Write}).2 = none ↔
      (⟨5, 3, true, []⟩ : SharedState).requests_open = false) ∧
    ((⟨5, 3, true, []⟩ : SharedState).requests_open = true →
      (((⟨5, 3, true, []⟩ : SharedState).request false ("q") {.Write}).2 =
        some ((⟨5, 3, true, []⟩ : SharedState).next_id, ⟨3, [], false⟩)) ∧
      ((⟨5, 3, true, []⟩ : SharedState).request false ("q") {.Write}).1.requests =
        [] ++ [Request.Create ⟨5, "q", false, {.Write}⟩ ⟨3, [], false⟩] ∧
      ((⟨5, 3, true, []⟩ : SharedState).request false ("q") {.Write}).1.next_id =
        5 + 1 ∧
      ((⟨5, 3, true, []⟩ : SharedState).request false ("q") {.Write}).1.requests_open =
        true) ∧
    ((AnotifyHandle.next (⟨5, 3, true, []⟩ : SharedState) ("q") {.Write}).2 =
        Except.error ⟨none, some ("q"), .Closed⟩ ↔
      (⟨5, 3, true, []⟩ : SharedState).requests_open = false) := by
  have h := C9_request_fails_only_when_closed (⟨5, 3, true, []⟩ : SharedState)
    false ("q") {.Write}
  exact ⟨h.1, fun ho => by
    obtain ⟨h1, h2, h3, h4⟩ := h.2.1 ho
    exact ⟨h1, h2, h3, h4⟩, h.2.2⟩

/-! ### C7: a full channel skips only that collector -/

/-- Helper: a single matching event against a full open channel leaves the
channel untouched and does not mark the collector (`TrySendError::Full`
hits `continue \x27collectors` without touching `to_remove`); a
non-matching event is not sent at all. -/
theorem send_full_skips (c : Collector) (ch : Channel) (e : Event)
    (hopen : ch.closed = false) (hfull : ch.capacity ≤ ch.queue.length) :
    send_to_collector c ch [e] = (ch, false) := by
  rw [send_to_collector]
  by_cases hc : e.contained_in c.filter
  · simp [hc, Channel.try_send, hopen, hfull]
  · simp [hc, send_to_collector]

/-- Helper: a single matching event against an open channel with room is
enqueued (whatever the `once` flag, the channel ends with the event
appended). -/
theorem send_room_delivers (c : Collector) (ch : Channel) (e : Event)
    (hopen : ch.closed = false) (hroom : ch.queue.length < ch.capacity)
    (hc : e.contained_in c.filter = true) :
    (send_to_collector c ch [e]).1 = { ch with queue := ch.queue ++ [e] } := by
  rw [send_to_collector]
  simp only [hc, if_true]
  rw [Channel.try_send]
  simp only [hopen, Bool.false_eq_true, if_false, not_le.2 hroom, if_neg (not_le.2 hroom)]
  by_cases ho : c.once <;> simp [ho, send_to_collector]

/-- Per-collector outcome of a batch of one Write event at path `p`: the
collector\x27s channel after the inner loop and whether it was marked. -/
def write_outcome (r : Registry) (chans : Channels) (p : Path) (i : Id) :
    Channel × Bool :=
  match Tbl.lookup r.collectors i with
  | some c => send_to_collector c (chans i) [⟨p, .Write⟩]
  | none => (chans i, false)

/-- Helper: unfolding `write_outcome` at an id whose collector exists. -/
theorem write_outcome_eq (r : Registry) (chans : Channels) (p : Path)
    {i : Id} {c : Collector} (hci : Tbl.lookup r.collectors i = some c) :
    write_outcome r chans p i = send_to_collector c (chans i) [⟨p, .Write⟩] := by
  rw [write_outcome, hci]

/-- Helper: `try_send_events_from` on the empty batch. -/
theorem try_send_events_from_nil (r : Registry) (chans : Channels)
    (tr : Finset Id) :
    Registry.try_send_events_from r chans tr [] = some (r, chans, tr) := rfl

/-- Helper: `try_send_events_from` on a cons. -/
theorem try_send_events_from_cons (r : Registry) (chans : Channels)
    (tr : Finset Id) (e : BindingEvent) (rest : List BindingEvent) :
    Registry.try_send_events_from r chans tr (e :: rest) =
      match r.process_event chans tr e with
      | none => none
      | some (r1, ch1, tr1) => r1.try_send_events_from ch1 tr1 rest := rfl

/-- Helper: closed form of `try_send_events` on a batch of one plain Write
event whose watch exists and whose interested ids all have collectors. -/
theorem try_send_single_write (r : Registry) (chans : Channels) (wd : Wd)
    (p : Path) (w : Watch)
    (hw : Tbl.lookup r.watches wd = some w)
    (hall : ∀ i ∈ w.interested, (Tbl.lookup r.collectors i).isSome) :
    r.try_send_events chans [⟨wd, some p, [.Write]⟩] =
      some (r,
        fun i => if i ∈ w.interested then (write_outcome r chans p i).1
          else chans i,
        w.interested.filter (fun i => (write_outcome r chans p i).2)) := by
  have hproc : r.process_event chans ∅ ⟨wd, some p, [.Write]⟩ =
      some (r,
        fun i => if i ∈ w.interested then (write_outcome r chans p i).1
          else chans i,
        ∅ ∪ w.interested.filter (fun i => (write_outcome r chans p i).2)) := by
    rw [Registry.process_event]
    show (match Tbl.lookup r.watches wd with
      | none => some (r, chans, (∅ : Finset Id))
      | some watch =>
        if decide (∀ i ∈ watch.interested, (Tbl.lookup r.collectors i).isSome) then
          some (r,
            fun i => if i ∈ watch.interested then (write_outcome r chans p i).1
              else chans i,
            ∅ ∪ watch.interested.filter (fun i => (write_outcome r chans p i).2))
        else none) = _
    rw [hw]
    simp only [decide_eq_true hall, if_true]
  rw [Registry.try_send_events, try_send_events_from_cons, hproc]
  simp only [try_send_events_from_nil, Finset.empty_union]

/-- C7: in a `try_send_events` batch of one Write event on watch `wd`, when
collector `f` has a full (open) channel, the event is skipped for `f`
alone: `f`\x27s channel is unchanged, `f` is not marked for removal, the
registry (collectors, watches, move cache) is unchanged, and any other
interested collector `g` whose filter matches the event and whose open
channel has room still receives it. -/
theorem C7_full_channel_skips_only_that_collector (r : Registry)
    (chans : Channels) (wd : Wd) (p : Path) (w : Watch) (f g : Id)
    (cf cg : Collector)
    (hw : Tbl.lookup r.watches wd = some w)
    (hall : ∀ i ∈ w.interested, (Tbl.lookup r.collectors i).isSome)
    (_hf : f ∈ w.interested)
    (hcf : Tbl.lookup r.collectors f = some cf)
    (hfull : (chans f).capacity ≤ (chans f).queue.length)
    (hfopen : (chans f).closed = false)
    (hg : g ∈ w.interested)
    (hcg : Tbl.lookup r.collectors g = some cg)
    (hmatch : Event.contained_in ⟨p, .Write⟩ cg.filter = true)
    (hgroom : (chans g).queue.length < (chans g).capacity)
    (hgopen : (chans g).closed = false) :
    ((r.try_send_events chans [⟨wd, some p, [.Write]⟩]).map (fun s => s.1) =
        some r) ∧
    ((r.try_send_events chans [⟨wd, some p, [.Write]⟩]).map (fun s => s.2.1 f) =
        some (chans f)) ∧
    ((r.try_send_events chans [⟨wd, some p, [.Write]⟩]).map
        (fun s => decide (f ∈ s.2.2)) = some false) ∧
    ((r.try_send_events chans [⟨wd, some p, [.Write]⟩]).map
        (fun s => (s.2.1 g).queue) =
      some ((chans g).queue ++ [⟨p, .Write⟩])) := by
  have hout : write_outcome r chans p f = (chans f, false) := by
    rw [write_outcome_eq r chans p hcf,
      send_full_skips cf (chans f) ⟨p, .Write⟩ hfopen hfull]
  have houtg : (write_outcome r chans p g).1 =
      { chans g with queue := (chans g).queue ++ [⟨p, .Write⟩] } := by
    rw [write_outcome_eq r chans p hcg]
    exact send_room_delivers cg (chans g) ⟨p, .Write⟩ hgopen hgroom hmatch
  rw [try_send_single_write r chans wd p w hw hall]
  refine ⟨rfl, ?_, ?_, ?_⟩
  · simp [hout]
  · simp [Finset.mem_filter, hout]
  · simp [if_pos hg, houtg]

/-- Witness for `C7_full_channel_skips_only_that_collector`: a watch with
two interested stream collectors 0 and 2 on path w, collector 0\x27s channel
full (capacity 1, one queued Write event), collector 2\x27s channel empty of
capacity 2. -/
theorem C7_full_channel_witness :
    (((⟨[(0, ⟨1, false, {.Write}⟩), (2, ⟨1, false, {.Write}⟩)],
        [(1, ⟨{0, 2}, "w", {.Write}⟩)], []⟩ : Registry).try_send_events
        (fun i => if i = 0 then ⟨1, [⟨"w", .Write⟩], false⟩ else ⟨2, [], false⟩)
        [⟨1, some ("w"), [.Write]⟩]).map (fun s => s.1) =
      some (⟨[(0, ⟨1, false, {.Write}⟩), (2, ⟨1, false, {.Write}⟩)],
        [(1, ⟨{0, 2}, "w", {.Write}⟩)], []⟩ : Registry)) ∧
    (((⟨[(0, ⟨1, false, {.Write}⟩), (2, ⟨1, false, {.Write}⟩)],
        [(1, ⟨{0, 2}, "w", {.Write}⟩)], []⟩ : Registry).try_send_events
        (fun i => if i = 0 then ⟨1, [⟨"w", .Write⟩], false⟩ else ⟨2, [], false⟩)
        [⟨1, some ("w"), [.Write]⟩]).map (fun s => s.2.1 0) =
      some ((fun i => if i = 0 then ⟨1, [⟨"w", .Write⟩], false⟩
        else (⟨2, [], false⟩ : Channel)) 0)) ∧
    (((⟨[(0, ⟨1, false, {.Write}⟩), (2, ⟨1, false, {.Write}⟩)],
        [(1, ⟨{0, 2}, "w", {.Write}⟩)], []⟩ : Registry).try_send_events
        (fun i => if i = 0 then ⟨1, [⟨"w", .Write⟩], false⟩ else ⟨2, [], false⟩)
        [⟨1, some ("w"), [.Write]⟩]).map (fun s => decide (0 ∈ s.2.2)) =
      some false) ∧
    (((⟨[(0, ⟨1, false, {.Write}⟩), (2, ⟨1, false, {.Write}⟩)],
        [(1, ⟨{0, 2}, "w", {.Write}⟩)], []⟩ : Registry).try_send_events
        (fun i => if i = 0 then ⟨1, [⟨"w", .Write⟩], false⟩ else ⟨2, [], false⟩)
        [⟨1, some ("w"), [.Write]⟩]).map (fun s => (s.2.1 2).queue) =
      some (((fun i => if i = 0 then ⟨1, [⟨"w", .Write⟩], false⟩
        else (⟨2, [], false⟩ : Channel)) 2).queue ++ [⟨"w", .Write⟩])) :=
  C7_full_channel_skips_only_that_collector
    (⟨[(0, ⟨1, false, {.Write}⟩), (2, ⟨1, false, {.Write}⟩)],
      [(1, ⟨{0, 2}, "w", {.Write}⟩)], []⟩ : Registry)
    (fun i => if i = 0 then ⟨1, [⟨"w", .Write⟩], false⟩ else ⟨2, [], false⟩)
    1 ("w") ⟨{0, 2}, "w", {.Write}⟩ 0 2 ⟨1, false, {.Write}⟩ ⟨1, false, {.Write}⟩
    (by decide) (by decide) (by decide) (by decide) (by decide) (by decide)
    (by decide) (by decide) (by decide) (by decide) (by decide)

/-! ### C3: teardown after the last consumer -/

/-- One registry operation as driven by the worker: a `Create` request or a
deregistration (`Drop`, closed receiver, or `once` delivery all funnel into
`deregister_interest`). -/
inductive Op
  | reg (id : Id) (path : Path) (once : Bool) (filter : EventFilter)
  | dereg (id : Id)

/-- Apply one operation to a registry-and-binding pair. -/
def Op.step (s : Registry × BindingState) : Op → Option (Registry × BindingState)
  | .reg id path once filter => some (s.1.register_interest s.2 ⟨id, path, once, filter⟩)
  | .dereg id => s.1.deregister_interest s.2 id

/-- Run a list of operations from a given state. -/
def runFrom (s : Registry × BindingState) : List Op → Option (Registry × BindingState)
  | [] => some s
  | op :: rest =>
    match Op.step s op with
    | none => none
    | some s1 => runFrom s1 rest

/-- Run a list of operations from an empty registry and a fresh binding. -/
def run (ops : List Op) : Option (Registry × BindingState) :=
  runFrom (Registry.new, BindingState.new) ops

/-- The ids of the registration operations of a trace, in order. -/
def regIds : List Op → List Id
  | [] => []
  | .reg i _ _ _ :: rest => i :: regIds rest
  | .dereg _ :: rest => regIds rest

/-- Registry invariant tied to the binding call log: bidirectional
consistency of the two tables, no watch without interest, and the
identifiers created so far split exactly into the removed ones and the
live watch keys. -/
structure Inv (r : Registry) (b : BindingState) : Prop where
  nodup_collectors : (Tbl.keys r.collectors).Nodup
  nodup_watches : (Tbl.keys r.watches).Nodup
  coll_watch : ∀ i c, Tbl.lookup r.collectors i = some c →
    ∃ w, Tbl.lookup r.watches c.wd = some w ∧ i ∈ w.interested
  watch_coll : ∀ wd w, Tbl.lookup r.watches wd = some w →
    ∀ i ∈ w.interested, ∃ c, Tbl.lookup r.collectors i = some c ∧ c.wd = wd
  nonempty_interest : ∀ wd w, Tbl.lookup r.watches wd = some w →
    w.interested ≠ ∅
  created_perm : List.Perm b.created (b.removed ++ Tbl.keys r.watches)
  created_bound : ∀ wd ∈ b.created, wd < b.next_wd
  created_nodup : b.created.Nodup

/-- The invariant holds initially. -/
theorem inv_init : Inv Registry.new BindingState.new := by
  refine ⟨?_, ?_, ?_, ?_, ?_, ?_, ?_, ?_⟩ <;>
    simp [Registry.new, BindingState.new, Tbl.lookup, Tbl.keys]

@[simp] theorem update_created (b : BindingState) (wd : Wd) (p : Path)
    (F : EventFilter) : (b.update wd p F).created = b.created := rfl

@[simp] theorem update_removed (b : BindingState) (wd : Wd) (p : Path)
    (F : EventFilter) : (b.update wd p F).removed = b.removed := rfl

@[simp] theorem update_next_wd (b : BindingState) (wd : Wd) (p : Path)
    (F : EventFilter) : (b.update wd p F).next_wd = b.next_wd := rfl

@[simp] theorem remove_created (b : BindingState) (wd : Wd) :
    (b.remove wd).created = b.created := rfl

@[simp] theorem remove_removed (b : BindingState) (wd : Wd) :
    (b.remove wd).removed = b.removed ++ [wd] := rfl

@[simp] theorem remove_next_wd (b : BindingState) (wd : Wd) :
    (b.remove wd).next_wd = b.next_wd := rfl

/-- `Watch::register` leaves `interested` untouched (release-build
semantics: the insert sits inside `debug_assert!`) and preserves the
path. -/
theorem watch_register_shape (w : Watch) (i : Id) (F : EventFilter) :
    (w.register i F).1.interested = w.interested ∧
    (w.register i F).1.path = w.path := by
  rw [Watch.register]
  by_cases h : F ⊆ w.event_filter <;> simp [h]

/-- Closed form of `register_interest` when a watch with the requested path
exists. -/
theorem register_interest_found (r : Registry) (b : BindingState)
    (req : CollectorRequest) {wd : Wd} {it : Watch}
    (hfind : r.watches.find? (fun e => e.2.path == req.path) = some (wd, it)) :
    (r.register_interest b req).1 =
      { r with watches := Tbl.modify r.watches wd (it.register req.id req.filter).1 } ∧
    (r.register_interest b req).2.created = b.created ∧
    (r.register_interest b req).2.removed = b.removed ∧
    (r.register_interest b req).2.next_wd = b.next_wd := by
  rw [Registry.register_interest, hfind]
  cases hreg : it.register req.id req.filter with
  | mk it1 upd => cases upd <;> simp [hreg]

/-- Closed form of `register_interest` when no watch has the requested
path. -/
theorem register_interest_notfound (r : Registry) (b : BindingState)
    (req : CollectorRequest)
    (hfind : r.watches.find? (fun e => e.2.path == req.path) = none) :
    r.register_interest b req =
      ({ r with
          watches := Tbl.insert r.watches b.next_wd ⟨{req.id}, req.path, req.filter⟩,
          collectors := Tbl.insert r.collectors req.id ⟨b.next_wd, req.once, req.filter⟩ },
       { b with next_wd := b.next_wd + 1, created := b.created ++ [b.next_wd] }) := by
  rw [Registry.register_interest, hfind]
  rfl

/-- Live watch keys are created identifiers, hence below the counter. -/
theorem watch_key_lt_next {r : Registry} {b : BindingState} (hInv : Inv r b)
    {wd : Wd} (h : wd ∈ Tbl.keys r.watches) : wd < b.next_wd :=
  hInv.created_bound wd (hInv.created_perm.mem_iff.2 (List.mem_append.2 (Or.inr h)))

/-- `register_interest` preserves the invariant when the incoming id has no
collector yet, and can only add that id to the collectors table. -/
theorem register_preserves (r : Registry) (b : BindingState)
    (req : CollectorRequest) (hInv : Inv r b)
    (hid : Tbl.lookup r.collectors req.id = none) :
    Inv (r.register_interest b req).1 (r.register_interest b req).2 ∧
    (∀ i, (Tbl.lookup (r.register_interest b req).1.collectors i).isSome →
      i = req.id ∨ (Tbl.lookup r.collectors i).isSome) := by
  cases hfind : r.watches.find? (fun e => e.2.path == req.path) with
  | some e =>
    obtain ⟨wd, it⟩ := e
    obtain ⟨hfst, hcr, hrm, hnx⟩ := register_interest_found r b req hfind
    have hitmem : (wd, it) ∈ r.watches := List.mem_of_find?_eq_some hfind
    have hitlook : Tbl.lookup r.watches wd = some it :=
      Tbl.lookup_of_mem hInv.nodup_watches hitmem
    obtain ⟨hint, hpath⟩ := watch_register_shape it req.id req.filter
    set it1 := (it.register req.id req.filter).1 with hit1
    constructor
    · refine ⟨?_, ?_, ?_, ?_, ?_, ?_, ?_, ?_⟩
      · rw [hfst]
        exact hInv.nodup_collectors
      · rw [hfst]
        simpa [Tbl.keys_modify] using hInv.nodup_watches
      · intro i c hc
        rw [hfst] at hc
        obtain ⟨w, hwl, hmem⟩ := hInv.coll_watch i c hc
        rw [hfst]
        by_cases hwdeq : c.wd = wd
        · subst hwdeq
          refine ⟨it1, ?_, ?_⟩
          · show Tbl.lookup (Tbl.modify r.watches c.wd it1) c.wd = some it1
            rw [Tbl.lookup_modify_self, hwl]
            rfl
          · have : w = it := by
              rw [hwl] at hitlook
              exact Option.some_inj.1 hitlook
            rw [hint, ← this]
            exact hmem
        · exact ⟨w, by
            show Tbl.lookup (Tbl.modify r.watches wd it1) c.wd = some w
            rw [Tbl.lookup_modify_ne r.watches it1 hwdeq, hwl], hmem⟩
      · intro wd2 w2 hw2 i hi
        rw [hfst] at hw2 ⊢
        by_cases hwdeq : wd2 = wd
        · subst hwdeq
          rw [show Tbl.lookup (Tbl.modify r.watches wd2 it1) wd2 =
              (Tbl.lookup r.watches wd2).map (fun _ => it1) from
              Tbl.lookup_modify_self r.watches wd2 it1, hitlook] at hw2
          have hw2eq : it1 = w2 := Option.some_inj.1 hw2
          rw [← hw2eq, hint] at hi
          exact hInv.watch_coll wd2 it hitlook i hi
        · rw [Tbl.lookup_modify_ne r.watches it1 hwdeq] at hw2
          exact hInv.watch_coll wd2 w2 hw2 i hi
      · intro wd2 w2 hw2
        rw [hfst] at hw2
        by_cases hwdeq : wd2 = wd
        · subst hwdeq
          rw [show Tbl.lookup (Tbl.modify r.watches wd2 it1) wd2 =
              (Tbl.lookup r.watches wd2).map (fun _ => it1) from
              Tbl.lookup_modify_self r.watches wd2 it1, hitlook] at hw2
          have hw2eq : it1 = w2 := Option.some_inj.1 hw2
          rw [← hw2eq, hint]
          exact hInv.nonempty_interest wd2 it hitlook
        · rw [Tbl.lookup_modify_ne r.watches it1 hwdeq] at hw2
          exact hInv.nonempty_interest wd2 w2 hw2
      · rw [hcr, hrm, hfst]
        simpa [Tbl.keys_modify] using hInv.created_perm
      · rw [hcr, hnx]
        exact hInv.created_bound
      · rw [hcr]
        exact hInv.created_nodup
    · intro i hi
      rw [hfst] at hi
      exact Or.inr hi
  | none =>
    rw [register_interest_notfound r b req hfind]
    have hwdfresh : b.next_wd ∉ Tbl.keys r.watches := by
      intro hmem
      exact lt_irrefl _ (watch_key_lt_next hInv hmem)
    have hidfresh : req.id ∉ Tbl.keys r.collectors := by
      rw [Tbl.mem_keys_iff_lookup_isSome, hid]
      simp
    constructor
    · refine ⟨?_, ?_, ?_, ?_, ?_, ?_, ?_, ?_⟩
      · exact Tbl.keys_insert_nodup _ hInv.nodup_collectors
      · exact Tbl.keys_insert_nodup _ hInv.nodup_watches
      · intro i c hc
        by_cases hieq : i = req.id
        · subst hieq
          rw [Tbl.lookup_insert_self] at hc
          have hceq : (⟨b.next_wd, req.once, req.filter⟩ : Collector) = c :=
            Option.some_inj.1 hc
          refine ⟨⟨{req.id}, req.path, req.filter⟩, ?_, ?_⟩
          · rw [← hceq]
            exact Tbl.lookup_insert_self r.watches b.next_wd _
          · simp
        · rw [Tbl.lookup_insert_ne r.collectors _ hieq] at hc
          obtain ⟨w, hwl, hmem⟩ := hInv.coll_watch i c hc
          have hcwd : c.wd ≠ b.next_wd := by
            intro heq
            apply hwdfresh
            rw [← heq, Tbl.mem_keys_iff_lookup_isSome, hwl]
            rfl
          exact ⟨w, by rw [Tbl.lookup_insert_ne r.watches _ hcwd]; exact hwl, hmem⟩
      · intro wd2 w2 hw2 i hi
        by_cases hwdeq : wd2 = b.next_wd
        · subst hwdeq
          rw [Tbl.lookup_insert_self] at hw2
          have hw2eq : (⟨{req.id}, req.path, req.filter⟩ : Watch) = w2 :=
            Option.some_inj.1 hw2
          rw [← hw2eq] at hi
          have : i = req.id := by simpa using hi
          subst this
          exact ⟨⟨b.next_wd, req.once, req.filter⟩,
            Tbl.lookup_insert_self r.collectors req.id _, rfl⟩
        · rw [Tbl.lookup_insert_ne r.watches _ hwdeq] at hw2
          obtain ⟨c, hcl, hcwd⟩ := hInv.watch_coll wd2 w2 hw2 i hi
          have hine : i ≠ req.id := by
            intro heq
            rw [heq, hid] at hcl
            cases hcl
          exact ⟨c, by rw [Tbl.lookup_insert_ne r.collectors _ hine]; exact hcl, hcwd⟩
      · intro wd2 w2 hw2
        by_cases hwdeq : wd2 = b.next_wd
        · subst hwdeq
          rw [Tbl.lookup_insert_self] at hw2
          have hw2eq : (⟨{req.id}, req.path, req.filter⟩ : Watch) = w2 :=
            Option.some_inj.1 hw2
          rw [← hw2eq]
          simp
        · rw [Tbl.lookup_insert_ne r.watches _ hwdeq] at hw2
          exact hInv.nonempty_interest wd2 w2 hw2
      · show List.Perm (b.created ++ [b.next_wd])
          (b.removed ++ Tbl.keys (Tbl.insert r.watches b.next_wd
            ⟨{req.id}, req.path, req.filter⟩))
        rw [Tbl.insert_of_not_mem_keys _ hwdfresh, Tbl.keys_cons]
        have h1 : List.Perm (b.created ++ [b.next_wd])
            ((b.removed ++ Tbl.keys r.watches) ++ [b.next_wd]) :=
          hInv.created_perm.append_right [b.next_wd]
        rw [List.append_assoc] at h1
        exact h1.trans
          (List.Perm.append_left b.removed (List.perm_append_singleton _ _))
      · show ∀ wd2 ∈ b.created ++ [b.next_wd], wd2 < b.next_wd + 1
        intro wd2 hwd2
        rw [List.mem_append] at hwd2
        rcases hwd2 with hwd2 | hwd2
        · exact Nat.lt_succ_of_lt (hInv.created_bound wd2 hwd2)
        · simp at hwd2
          simp [hwd2]
      · show (b.created ++ [b.next_wd]).Nodup
        rw [List.nodup_append]
        refine ⟨hInv.created_nodup, List.nodup_singleton _, ?_⟩
        intro x hx hx2
        simp at hx2
        subst hx2
        exact lt_irrefl _ (hInv.created_bound _ hx)
    · intro i hi
      by_cases hieq : i = req.id
      · exact Or.inl hieq
      · rw [Tbl.lookup_insert_ne r.collectors _ hieq] at hi
        exact Or.inr hi

/-- `has_interest` is false exactly on an empty interested set. -/
theorem has_interest_false_iff (w : Watch) :
    w.has_interest = false ↔ w.interested = ∅ := by
  simp [Watch.has_interest]

/-- `has_interest` is true exactly on a nonempty interested set. -/
theorem has_interest_true_iff (w : Watch) :
    w.has_interest = true ↔ w.interested ≠ ∅ := by
  simp [Watch.has_interest]

/-- A successful `Watch::deregister` of a present id erases exactly that id
from `interested` and keeps the path. -/
theorem watch_deregister_shape (w : Watch) (i : Id)
    (get : Id → Option EventFilter) (hmem : i ∈ w.interested) :
    ∀ w1 upd, w.deregister i get = some (w1, upd) →
      w1.interested = w.interested.erase i ∧ w1.path = w.path := by
  intro w1 upd h
  rw [Watch.deregister, if_pos hmem, Watch.deregister_rest] at h
  split at h
  · have heq := Option.some_inj.1 h
    rw [Prod.mk.injEq] at heq
    rw [← heq.1]
    exact ⟨rfl, rfl⟩
  · split at h
    · have heq := Option.some_inj.1 h
      rw [Prod.mk.injEq] at heq
      rw [← heq.1]
      exact ⟨rfl, rfl⟩
    · cases h

/-- Invariant reconstruction for the deregistration branch that keeps the
watch (interest remains): collectors lose id `i`, the watch record at
`removing.wd` becomes `w1` (the watch with `i` erased), and the binding
call log keeps its created/removed lists. -/
theorem dereg_inv_modify (r : Registry) (b : BindingState) (i : Id)
    (removing : Collector) (w w1 : Watch) (b2 : BindingState)
    (hInv : Inv r b)
    (hc : Tbl.lookup r.collectors i = some removing)
    (hwl : Tbl.lookup r.watches removing.wd = some w)
    (hint : w1.interested = w.interested.erase i)
    (hhi : w1.has_interest = true)
    (hb2c : b2.created = b.created) (hb2r : b2.removed = b.removed)
    (hb2n : b2.next_wd = b.next_wd) :
    Inv ⟨Tbl.erase r.collectors i, Tbl.modify r.watches removing.wd w1,
      r.move_cache⟩ b2 := by
  refine ⟨?_, ?_, ?_, ?_, ?_, ?_, ?_, ?_⟩
  · exact Tbl.keys_erase_nodup i hInv.nodup_collectors
  · simpa [Tbl.keys_modify] using hInv.nodup_watches
  · intro j c hcj
    have hcj' : Tbl.lookup (Tbl.erase r.collectors i) j = some c := hcj
    have hji : j ≠ i := by
      intro e
      rw [e, Tbl.lookup_erase_self] at hcj'
      cases hcj'
    rw [Tbl.lookup_erase_ne _ hji] at hcj'
    obtain ⟨w2, hw2l, hmem2⟩ := hInv.coll_watch j c hcj'
    by_cases hwdeq : c.wd = removing.wd
    · have hw2w : w2 = w := by
        rw [hwdeq, hwl] at hw2l
        exact (Option.some_inj.1 hw2l).symm
      refine ⟨w1, ?_, ?_⟩
      · show Tbl.lookup (Tbl.modify r.watches removing.wd w1) c.wd = some w1
        rw [hwdeq, Tbl.lookup_modify_self, hwl]
        rfl
      · rw [hint]
        exact Finset.mem_erase.2 ⟨hji, hw2w ▸ hmem2⟩
    · refine ⟨w2, ?_, hmem2⟩
      show Tbl.lookup (Tbl.modify r.watches removing.wd w1) c.wd = some w2
      rw [Tbl.lookup_modify_ne _ _ hwdeq]
      exact hw2l
  · intro wd2 w2 hw2 j hj
    have hw2' : Tbl.lookup (Tbl.modify r.watches removing.wd w1) wd2 =
        some w2 := hw2
    by_cases hwdeq : wd2 = removing.wd
    · rw [hwdeq, Tbl.lookup_modify_self, hwl] at hw2'
      have hww : w1 = w2 := Option.some_inj.1 hw2'
      rw [← hww, hint] at hj
      obtain ⟨hji, hjw⟩ := Finset.mem_erase.1 hj
      obtain ⟨c, hcl, hcwd⟩ := hInv.watch_coll removing.wd w hwl j hjw
      refine ⟨c, ?_, by rw [hcwd, hwdeq]⟩
      show Tbl.lookup (Tbl.erase r.collectors i) j = some c
      rw [Tbl.lookup_erase_ne _ hji]
      exact hcl
    · rw [Tbl.lookup_modify_ne _ _ hwdeq] at hw2'
      obtain ⟨c, hcl, hcwd⟩ := hInv.watch_coll wd2 w2 hw2' j hj
      have hji : j ≠ i := by
        intro e
        rw [e, hc] at hcl
        have hrc : removing = c := Option.some_inj.1 hcl
        exact hwdeq (by rw [← hcwd, ← hrc])
      refine ⟨c, ?_, hcwd⟩
      show Tbl.lookup (Tbl.erase r.collectors i) j = some c
      rw [Tbl.lookup_erase_ne _ hji]
      exact hcl
  · intro wd2 w2 hw2
    have hw2' : Tbl.lookup (Tbl.modify r.watches removing.wd w1) wd2 =
        some w2 := hw2
    by_cases hwdeq : wd2 = removing.wd
    · rw [hwdeq, Tbl.lookup_modify_self, hwl] at hw2'
      have hww : w1 = w2 := Option.some_inj.1 hw2'
      rw [← hww]
      exact (has_interest_true_iff w1).1 hhi
    · rw [Tbl.lookup_modify_ne _ _ hwdeq] at hw2'
      exact hInv.nonempty_interest wd2 w2 hw2'
  · show List.Perm b2.created
      (b2.removed ++ Tbl.keys (Tbl.modify r.watches removing.wd w1))
    rw [hb2c, hb2r, Tbl.keys_modify]
    exact hInv.created_perm
  · show ∀ wd2 ∈ b2.created, wd2 < b2.next_wd
    rw [hb2c, hb2n]
    exact hInv.created_bound
  · show b2.created.Nodup
    rw [hb2c]
    exact hInv.created_nodup

/-- Invariant reconstruction for the deregistration branch that removes the
watch (the removed id was the last interest): collectors lose id `i`, the
watch record disappears, and the binding log additionally records the
`remove` call. -/
theorem dereg_inv_erase (r : Registry) (b : BindingState) (i : Id)
    (removing : Collector) (w w1 : Watch) (b2 : BindingState)
    (hInv : Inv r b)
    (hc : Tbl.lookup r.collectors i = some removing)
    (hwl : Tbl.lookup r.watches removing.wd = some w)
    (hint : w1.interested = w.interested.erase i)
    (hhi : w1.has_interest = false)
    (hb2c : b2.created = b.created)
    (hb2r : b2.removed = b.removed ++ [removing.wd])
    (hb2n : b2.next_wd = b.next_wd) :
    Inv ⟨Tbl.erase r.collectors i, Tbl.erase r.watches removing.wd,
      r.move_cache⟩ b2 := by
  have hw1e : w1.interested = ∅ := (has_interest_false_iff w1).1 hhi
  refine ⟨?_, ?_, ?_, ?_, ?_, ?_, ?_, ?_⟩
  · exact Tbl.keys_erase_nodup i hInv.nodup_collectors
  · exact Tbl.keys_erase_nodup removing.wd hInv.nodup_watches
  · intro j c hcj
    have hcj' : Tbl.lookup (Tbl.erase r.collectors i) j = some c := hcj
    have hji : j ≠ i := by
      intro e
      rw [e, Tbl.lookup_erase_self] at hcj'
      cases hcj'
    rw [Tbl.lookup_erase_ne _ hji] at hcj'
    obtain ⟨w2, hw2l, hmem2⟩ := hInv.coll_watch j c hcj'
    have hwdne : c.wd ≠ removing.wd := by
      intro heq
      have hw2w : w2 = w := by
        rw [heq, hwl] at hw2l
        exact (Option.some_inj.1 hw2l).symm
      have hjmem : j ∈ w1.interested := by
        rw [hint]
        exact Finset.mem_erase.2 ⟨hji, hw2w ▸ hmem2⟩
      rw [hw1e] at hjmem
      exact absurd hjmem (Finset.not_mem_empty j)
    refine ⟨w2, ?_, hmem2⟩
    show Tbl.lookup (Tbl.erase r.watches removing.wd) c.wd = some w2
    rw [Tbl.lookup_erase_ne _ hwdne]
    exact hw2l
  · intro wd2 w2 hw2 j hj
    have hw2' : Tbl.lookup (Tbl.erase r.watches removing.wd) wd2 =
        some w2 := hw2
    have hwdne : wd2 ≠ removing.wd := by
      intro e
      rw [e, Tbl.lookup_erase_self] at hw2'
      cases hw2'
    rw [Tbl.lookup_erase_ne _ hwdne] at hw2'
    obtain ⟨c, hcl, hcwd⟩ := hInv.watch_coll wd2 w2 hw2' j hj
    have hji : j ≠ i := by
      intro e
      rw [e, hc] at hcl
      have hrc : removing = c := Option.some_inj.1 hcl
      exact hwdne (by rw [← hcwd, ← hrc])
    refine ⟨c, ?_, hcwd⟩
    show Tbl.lookup (Tbl.erase r.collectors i) j = some c
    rw [Tbl.lookup_erase_ne _ hji]
    exact hcl
  · intro wd2 w2 hw2
    have hw2' : Tbl.lookup (Tbl.erase r.watches removing.wd) wd2 =
        some w2 := hw2
    have hwdne : wd2 ≠ removing.wd := by
      intro e
      rw [e, Tbl.lookup_erase_self] at hw2'
      cases hw2'
    rw [Tbl.lookup_erase_ne _ hwdne] at hw2'
    exact hInv.nonempty_interest wd2 w2 hw2'
  · show List.Perm b2.created
      (b2.removed ++ Tbl.keys (Tbl.erase r.watches removing.wd))
    rw [hb2c, hb2r]
    have hkmem : removing.wd ∈ Tbl.keys r.watches := by
      rw [Tbl.mem_keys_iff_lookup_isSome, hwl]
      rfl
    have h1 : List.Perm (b.removed ++ Tbl.keys r.watches)
        (b.removed ++
          (removing.wd :: Tbl.keys (Tbl.erase r.watches removing.wd))) :=
      List.Perm.append_left b.removed
        (Tbl.perm_keys_erase hInv.nodup_watches hkmem)
    have h2 : b.removed ++
        (removing.wd :: Tbl.keys (Tbl.erase r.watches removing.wd)) =
        b.removed ++ [removing.wd] ++
          Tbl.keys (Tbl.erase r.watches removing.wd) := by
      rw [List.append_assoc]
      rfl
    rw [← h2]
    exact hInv.created_perm.trans h1
  · show ∀ wd2 ∈ b2.created, wd2 < b2.next_wd
    rw [hb2c, hb2n]
    exact hInv.created_bound
  · show b2.created.Nodup
    rw [hb2c]
    exact hInv.created_nodup

/-- `deregister_interest` preserves the invariant and only shrinks the
collectors table. -/
theorem deregister_preserves (r : Registry) (b : BindingState) (i : Id)
    (hInv : Inv r b) :
    ∀ s1, r.deregister_interest b i = some s1 →
      Inv s1.1 s1.2 ∧
      (∀ j, (Tbl.lookup s1.1.collectors j).isSome →
        (Tbl.lookup r.collectors j).isSome) := by
  intro s1 h
  rw [Registry.deregister_interest] at h
  cases hc : Tbl.lookup r.collectors i with
  | none =>
    rw [hc] at h
    cases Option.some_inj.1 h
    exact ⟨hInv, fun j hj => hj⟩
  | some removing =>
    obtain ⟨w, hwl, hmem⟩ := hInv.coll_watch i removing hc
    cases hd : w.deregister i
        (fun j => (Tbl.lookup (Tbl.erase r.collectors i) j).map (·.filter)) with
    | none =>
      simp only [hc, hwl, hd] at h
      exact Option.noConfusion h
    | some p =>
      obtain ⟨w1, upd⟩ := p
      obtain ⟨hint, hpath⟩ := watch_deregister_shape w i _ hmem w1 upd hd
      simp only [hc, hwl, hd] at h
      have hshrink : ∀ j, (Tbl.lookup (Tbl.erase r.collectors i) j).isSome →
          (Tbl.lookup r.collectors j).isSome := by
        intro j hj
        have hji : j ≠ i := by
          intro e
          rw [e, Tbl.lookup_erase_self] at hj
          cases hj
        rw [Tbl.lookup_erase_ne _ hji] at hj
        exact hj
      cases upd with
      | none =>
        cases hhi : w1.has_interest with
        | true =>
          rw [hhi, if_pos rfl] at h
          cases Option.some_inj.1 h
          exact ⟨dereg_inv_modify r b i removing w w1 b hInv hc hwl hint hhi
            rfl rfl rfl, hshrink⟩
        | false =>
          rw [hhi] at h
          simp only [Bool.false_eq_true, if_false] at h
          cases Option.some_inj.1 h
          exact ⟨dereg_inv_erase r b i removing w w1 (b.remove removing.wd)
            hInv hc hwl hint hhi rfl rfl rfl, hshrink⟩
      | some nf =>
        cases hhi : w1.has_interest with
        | true =>
          rw [hhi, if_pos rfl] at h
          cases Option.some_inj.1 h
          exact ⟨dereg_inv_modify r b i removing w w1
            (b.update removing.wd w.path nf) hInv hc hwl hint hhi
            rfl rfl rfl, hshrink⟩
        | false =>
          rw [hhi] at h
          simp only [Bool.false_eq_true, if_false] at h
          cases Option.some_inj.1 h
          exact ⟨dereg_inv_erase r b i removing w w1
            ((b.update removing.wd w.path nf).remove removing.wd)
            hInv hc hwl hint hhi rfl rfl rfl, hshrink⟩

/-- Helper: `runFrom` on a cons. -/
theorem runFrom_cons (s : Registry × BindingState) (op : Op) (rest : List Op) :
    runFrom s (op :: rest) =
      match Op.step s op with
      | none => none
      | some s1 => runFrom s1 rest := rfl

/-- Induction: a run from an invariant state whose live subscription ids
are all in `seen`, fed registration ids disjoint from `seen` and pairwise
distinct, ends (when it ends) in an invariant state. -/
theorem runFrom_inv : ∀ (ops : List Op) (r : Registry) (b : BindingState)
    (seen : List Id), Inv r b →
    (∀ i, (Tbl.lookup r.collectors i).isSome → i ∈ seen) →
    (∀ i ∈ regIds ops, i ∉ seen) →
    (regIds ops).Nodup →
    ∀ s1, runFrom (r, b) ops = some s1 → Inv s1.1 s1.2 := by
  intro ops
  induction ops with
  | nil =>
    intro r b seen hInv _ _ _ s1 h
    cases Option.some_inj.1 h
    exact hInv
  | cons op rest ih =>
    intro r b seen hInv hseen hdisj hnd s1 h
    rw [runFrom_cons] at h
    cases op with
    | reg id path once filter =>
      simp only [Op.step] at h
      have hidmem : id ∈ regIds (Op.reg id path once filter :: rest) := by
        rw [regIds]
        exact List.mem_cons_self id _
      have hid : Tbl.lookup r.collectors id = none := by
        cases hl : Tbl.lookup r.collectors id with
        | none => rfl
        | some c =>
          exact absurd (hseen id (by rw [hl]; rfl)) (hdisj id hidmem)
      obtain ⟨hInv1, hsub⟩ :=
        register_preserves r b ⟨id, path, once, filter⟩ hInv hid
      have hndt : (regIds rest).Nodup ∧ id ∉ regIds rest := by
        rw [show regIds (Op.reg id path once filter :: rest) =
          id :: regIds rest from rfl, List.nodup_cons] at hnd
        exact ⟨hnd.2, hnd.1⟩
      refine ih (r.register_interest b ⟨id, path, once, filter⟩).1
        (r.register_interest b ⟨id, path, once, filter⟩).2 (id :: seen)
        hInv1 ?_ ?_ hndt.1 s1 h
      · intro i hi
        rcases hsub i hi with he | hold
        · rw [he]
          exact List.mem_cons_self id seen
        · exact List.mem_cons_of_mem id (hseen i hold)
      · intro i hi hmem
        rcases List.mem_cons.1 hmem with he | hseen2
        · rw [he] at hi
          exact hndt.2 hi
        · exact hdisj i (by
            rw [show regIds (Op.reg id path once filter :: rest) =
              id :: regIds rest from rfl]
            exact List.mem_cons_of_mem id hi) hseen2
    | dereg id =>
      simp only [Op.step] at h
      cases hd : r.deregister_interest b id with
      | none =>
        rw [hd] at h
        exact Option.noConfusion h
      | some s2 =>
        rw [hd] at h
        obtain ⟨hInv2, hshr⟩ := deregister_preserves r b id hInv s2 hd
        exact ih s2.1 s2.2 seen hInv2 (fun i hi => hseen i (hshr i hi))
          hdisj hnd s1 h

/-- C3: any sequence of register/deregister operations from an empty
registry whose registration ids are pairwise distinct (the allocator
guarantee: identifiers are unique and never reused) and whose run completes
with an empty collectors table leaves the watch table empty, with the
binding having received exactly one `remove` for every identifier `create`
returned (the removed list is a permutation of the created list, which has
no duplicates). -/
theorem C3_last_consumer_teardown (ops : List Op) (r : Registry)
    (b : BindingState) (hnd : (regIds ops).Nodup)
    (hrun : run ops = some (r, b)) (hempty : r.collectors = []) :
    r.watches = [] ∧ List.Perm b.removed b.created ∧ b.created.Nodup := by
  have hInv : Inv r b := by
    apply runFrom_inv ops Registry.new BindingState.new [] inv_init ?_ ?_ hnd
      (r, b) hrun
    · intro i hi
      rw [show Tbl.lookup Registry.new.collectors i = none from rfl] at hi
      simp at hi
    · intro i _
      exact List.not_mem_nil i
  have hw : r.watches = [] := by
    cases hwl : r.watches with
    | nil => rfl
    | cons e rest =>
      exfalso
      have hlook : Tbl.lookup r.watches e.1 = some e.2 := by
        rw [hwl, Tbl.lookup_cons, if_pos rfl]
      have hne := hInv.nonempty_interest e.1 e.2 hlook
      obtain ⟨j, hj⟩ := Finset.nonempty_of_ne_empty hne
      obtain ⟨c, hcl, _⟩ := hInv.watch_coll e.1 e.2 hlook j hj
      rw [hempty, Tbl.lookup_nil] at hcl
      exact Option.noConfusion hcl
  refine ⟨hw, ?_, hInv.created_nodup⟩
  have hperm := hInv.created_perm
  rw [hw] at hperm
  simpa using hperm.symm

/-- Witness for `C3_last_consumer_teardown`: register subscription 0 on
path a, then deregister it.  The run ends with both tables empty, created
list `[0]` and removed list `[0]`. -/
theorem C3_last_consumer_teardown_witness :
    (⟨[], [], []⟩ : Registry).watches = [] ∧
    List.Perm (⟨1, [0], [], [0]⟩ : BindingState).removed
      (⟨1, [0], [], [0]⟩ : BindingState).created ∧
    (⟨1, [0], [], [0]⟩ : BindingState).created.Nodup :=
  C3_last_consumer_teardown [Op.reg 0 ("a") false {.Write}, Op.dereg 0]
    ⟨[], [], []⟩ ⟨1, [0], [], [0]⟩ (by decide) (by decide) (by decide)

end Anotify
